import Mathlib

/-!
Snapshot bytecode format of `SerializerDeserializer`

A shallow embedding of `src/snapshot/serializer-deserializer.h`: the opcode
table (`enum Bytecode`, `UNUSED_SERIALIZER_BYTE_CODES`), the region-merging
helper `BytecodeWithSpace`, the raw-data / repeat-count density helpers and
the `HotObjectsList` ring.

Conventions of the embedding:

* a C++ `int` or `byte` value is an `Int`; `int` results are reduced to the
  32-bit two's-complement range by `wrapInt32`, `byte` results to `0..255`
  by `toByte`;
* a function whose `DCHECK` / `CONSTEXPR_DCHECK` / `STATIC_ASSERT` fails, or
  which would index an array out of bounds, returns `none`;
* bitwise operators act on the 32-bit two's-complement bit patterns.
-/

namespace v8.internal

/-! ## Machine integers -/

/-- Bit pattern of a C++ `int`, as an unsigned 32-bit number. -/
def toUnsigned32 (x : Int) : Nat := (x % 4294967296).toNat

/-- Value of a 32-bit pattern read as a two's-complement `int`. -/
def toSigned32 (n : Nat) : Int :=
  if n % 4294967296 < 2147483648 then ((n % 4294967296 : Nat) : Int)
  else ((n % 4294967296 : Nat) : Int) - 4294967296

/-- Result of `int` arithmetic, reduced modulo 2^32 into `INT_MIN..INT_MAX`. -/
def wrapInt32 (x : Int) : Int := toSigned32 (toUnsigned32 x)

/-- Conversion of an `int` to `byte` (`uint8_t`): reduction modulo 256. -/
def toByte (x : Int) : Int := x % 256

/-- Predicate: the value is representable as a C++ `int`. -/
def IsInt32 (x : Int) : Prop := -2147483648 ≤ x ∧ x ≤ 2147483647

instance (x : Int) : Decidable (IsInt32 x) := by
  unfold IsInt32; infer_instance

/-- Predicate: the value is representable as a `byte`. -/
def IsByte (x : Int) : Prop := 0 ≤ x ∧ x ≤ 255

instance (x : Int) : Decidable (IsByte x) := by
  unfold IsByte; infer_instance

/-- C++ `a & b` on `int` operands. -/
def bitAnd (a b : Int) : Int := toSigned32 (toUnsigned32 a &&& toUnsigned32 b)

/-- C++ `~a` on an `int` operand. -/
def bitNot (a : Int) : Int := toSigned32 (toUnsigned32 a ^^^ 4294967295)

/-- C++ `a | b` on `int` operands. -/
def bitOr (a b : Int) : Int := toSigned32 (toUnsigned32 a ||| toUnsigned32 b)

/-- Modelled from the spec: `base::IsInRange` (declared in `src/base/bounds.h`,
which is not part of the sources at hand).  The encoders declare their ranges
as `1..32` and `2..17` with both ends encodable, so the test is the inclusive
one, `lower_limit ≤ value ≤ higher_limit`. -/
def IsInRange (value lower_limit higher_limit : Int) : Bool :=
  decide (lower_limit ≤ value) && decide (value ≤ higher_limit)

/-! ## Constants of `SerializerDeserializer` -/

/-- Value fixed by `STATIC_ASSERT(6 == kNumberOfSpaces)`. -/
def kNumberOfSpaces : Int := 6
def kSpaceMask : Int := 7
def kRootArrayConstantsCount : Int := 0x20
def kRootArrayConstantsMask : Int := 0x1f
def kFixedRawDataCount : Int := 0x20
def kFixedRepeatCount : Int := 0x10
def kHotObjectCount : Int := 8
def kHotObjectMask : Int := 0x07
def kAlignmentPrefixCount : Int := 3

/-! ## `enum Bytecode : byte`

An enumerator without an initialiser has the value of its predecessor plus
one, which is how the definitions below are written. -/

def kNewObject : Int := 0x00
def kBackref : Int := 0x08
def kStartupObjectCache : Int := 0x10
def kRootArray : Int := kStartupObjectCache + 1
def kAttachedReference : Int := kRootArray + 1
def kReadOnlyObjectCache : Int := kAttachedReference + 1
def kNop : Int := kReadOnlyObjectCache + 1
def kNextChunk : Int := kNop + 1
def kDeferred : Int := kNextChunk + 1
def kAlignmentPrefix : Int := 0x17
def kSynchronize : Int := 0x1a
def kVariableRepeat : Int := kSynchronize + 1
def kOffHeapBackingStore : Int := kVariableRepeat + 1
def kEmbedderFieldsData : Int := kOffHeapBackingStore + 1
def kVariableRawCode : Int := kEmbedderFieldsData + 1
def kVariableRawData : Int := kVariableRawCode + 1
def kApiReference : Int := kVariableRawData + 1
def kExternalReference : Int := kApiReference + 1
def kSandboxedApiReference : Int := kExternalReference + 1
def kSandboxedExternalReference : Int := kSandboxedApiReference + 1
def kInternalReference : Int := kSandboxedExternalReference + 1
def kClearedWeakReference : Int := kInternalReference + 1
def kWeakPrefix : Int := kClearedWeakReference + 1
def kOffHeapTarget : Int := kWeakPrefix + 1
def kRegisterPendingForwardRef : Int := kOffHeapTarget + 1
def kResolvePendingForwardRef : Int := kRegisterPendingForwardRef + 1
def kNewMetaMap : Int := kResolvePendingForwardRef + 1
def kRootArrayConstants : Int := 0x40
def kFixedRawData : Int := 0x60
def kFixedRepeat : Int := 0x80
def kHotObject : Int := 0x90

/-- The list `UNUSED_SERIALIZER_BYTE_CODES(V)`, in the order of the macro. -/
def UNUSED_SERIALIZER_BYTE_CODES : List Int :=
  [0x06, 0x07, 0x0e, 0x0f,
   0x2b, 0x2c, 0x2d, 0x2e, 0x2f,
   0x30, 0x31, 0x32, 0x33, 0x34, 0x35, 0x36, 0x37,
   0x38, 0x39, 0x3a, 0x3b, 0x3c, 0x3d, 0x3e, 0x3f,
   0x98, 0x99, 0x9a, 0x9b, 0x9c, 0x9d, 0x9e, 0x9f,
   0xa0, 0xa1, 0xa2, 0xa3, 0xa4, 0xa5, 0xa6, 0xa7,
   0xa8, 0xa9, 0xaa, 0xab, 0xac, 0xad, 0xae, 0xaf,
   0xb0, 0xb1, 0xb2, 0xb3, 0xb4, 0xb5, 0xb6, 0xb7,
   0xb8, 0xb9, 0xba, 0xbb, 0xbc, 0xbd, 0xbe, 0xbf,
   0xc0, 0xc1, 0xc2, 0xc3, 0xc4, 0xc5, 0xc6, 0xc7,
   0xc8, 0xc9, 0xca, 0xcb, 0xcc, 0xcd, 0xce, 0xcf,
   0xd0, 0xd1, 0xd2, 0xd3, 0xd4, 0xd5, 0xd6, 0xd7,
   0xd8, 0xd9, 0xda, 0xdb, 0xdc, 0xdd, 0xde, 0xdf,
   0xe0, 0xe1, 0xe2, 0xe3, 0xe4, 0xe5, 0xe6, 0xe7,
   0xe8, 0xe9, 0xea, 0xeb, 0xec, 0xed, 0xee, 0xef,
   0xf0, 0xf1, 0xf2, 0xf3, 0xf4, 0xf5, 0xf6, 0xf7,
   0xf8, 0xf9, 0xfa, 0xfb, 0xfc, 0xfd, 0xfe, 0xff]

/-- The function `BytecodeWithSpace<space>(bytecode)`; the template argument is
the first argument.  The `STATIC_ASSERT` on the space and the `CONSTEXPR_DCHECK` on the
base opcode both yield `none` when they fail. -/
def BytecodeWithSpace (space : Int) (bytecode : Int) : Option Int :=
  if bitAnd space (bitNot kSpaceMask) = 0 then
    if bitAnd bytecode kSpaceMask = 0 then
      some (toByte (wrapInt32 (bytecode + space)))
    else none
  else none

/-- The constant `static const SnapshotSpace kAnyOldSpace =
SnapshotSpace::kNumberOfSpaces`, as its `int` value. -/
def kAnyOldSpace : Int := kNumberOfSpaces

/-! ## Raw data size encoding helpers -/

def kFirstEncodableFixedRawDataSize : Int := 1
def kLastEncodableFixedRawDataSize : Int :=
  kFirstEncodableFixedRawDataSize + kFixedRawDataCount - 1

/-- The function `EncodeFixedRawDataSize(int size_in_tagged)`, returning a `byte`. -/
def EncodeFixedRawDataSize (size_in_tagged : Int) : Option Int :=
  if IsInRange size_in_tagged kFirstEncodableFixedRawDataSize
      kLastEncodableFixedRawDataSize then
    some (toByte (wrapInt32
      (kFixedRawData + size_in_tagged - kFirstEncodableFixedRawDataSize)))
  else none

/-- The function `DecodeFixedRawDataSize(byte bytecode)`, returning an `int`. -/
def DecodeFixedRawDataSize (bytecode : Int) : Option Int :=
  if IsInRange bytecode (kFixedRawData + 0)
      (kFixedRawData + kFixedRawDataCount) then
    some (wrapInt32 (bytecode - kFixedRawData + kFirstEncodableFixedRawDataSize))
  else none

/-! ## Repeat count encoding helpers -/

def kFirstEncodableRepeatCount : Int := 2
def kLastEncodableFixedRepeatCount : Int :=
  kFirstEncodableRepeatCount + kFixedRepeatCount - 1
def kFirstEncodableVariableRepeatCount : Int :=
  kLastEncodableFixedRepeatCount + 1

/-- The function `EncodeFixedRepeat(int repeat_count)`, returning a `byte`. -/
def EncodeFixedRepeat (repeat_count : Int) : Option Int :=
  if IsInRange repeat_count kFirstEncodableRepeatCount
      kLastEncodableFixedRepeatCount then
    some (toByte (wrapInt32
      (kFixedRepeat + repeat_count - kFirstEncodableRepeatCount)))
  else none

/-- The function `DecodeFixedRepeatCount(int bytecode)`, returning an `int`. -/
def DecodeFixedRepeatCount (bytecode : Int) : Option Int :=
  if IsInRange bytecode (kFixedRepeat + 0) (kFixedRepeat + kFixedRepeatCount) then
    some (wrapInt32 (bytecode - kFixedRepeat + kFirstEncodableRepeatCount))
  else none

/-- The function `EncodeVariableRepeatCount(int repeat_count)`, returning an `int`. -/
def EncodeVariableRepeatCount (repeat_count : Int) : Option Int :=
  if kFirstEncodableVariableRepeatCount ≤ repeat_count then
    some (wrapInt32 (repeat_count - kFirstEncodableVariableRepeatCount))
  else none

/-- The function `DecodeVariableRepeatCount(int value)`, returning an `int`. -/
def DecodeVariableRepeatCount (value : Int) : Option Int :=
  if 0 ≤ value then
    some (wrapInt32 (value + kFirstEncodableVariableRepeatCount))
  else none

/-! ## `HotObjectsList` -/

/-- Modelled from the spec: `HeapObject` (declared outside the sources at
hand) is an object identity: two values are `==` exactly when they denote the
same object, and the default-constructed value is the null object, the only
one for which `is_null()` holds.  The identity is the address `ptr`, null
being address 0. -/
structure HeapObject where
  ptr : Nat
  deriving DecidableEq, Repr

namespace HeapObject

/-- The default-constructed `HeapObject()`. -/
def null : HeapObject := ⟨0⟩

/-- The method `HeapObject::is_null()`. -/
def is_null (o : HeapObject) : Bool := o.ptr == 0

end HeapObject

/-- The constant `static const int kSize = 8`: extent of `circular_queue_`. -/
def HotObjectsList.kSize : Nat := 8

/-- State of a `HotObjectsList`: the array `circular_queue_[kSize]` and the
insertion cursor `int index_`. -/
structure HotObjectsList where
  circular_queue_ : Fin HotObjectsList.kSize → HeapObject
  index_ : Int

namespace HotObjectsList

/-- The constant `static const int kNotFound = -1`. -/
def kNotFound : Int := -1

/-- The constant `static const int kSizeMask = kSize - 1`. -/
def kSizeMask : Int := (kSize : Int) - 1

/-- The defaulted constructor `HotObjectsList() = default`: every slot is a
default-constructed (null) `HeapObject` and `index_ = 0`. -/
def init : HotObjectsList :=
  { circular_queue_ := fun _ => HeapObject.null, index_ := 0 }

/-- The element `circular_queue_[index]` for an `int index`; `none` when the
index is outside the array. -/
def slot (l : HotObjectsList) (index : Int) : Option HeapObject :=
  if h : 0 ≤ index ∧ index < (kSize : Int) then
    some (l.circular_queue_ ⟨index.toNat, by omega⟩)
  else none

/-- The method `Add(HeapObject object)`.  `allow_heap_allocation` is the value of
`AllowHeapAllocation::IsAllowed()` at the call, which the first `DCHECK`
requires to be false. -/
def Add (allow_heap_allocation : Bool) (l : HotObjectsList)
    (object : HeapObject) : Option HotObjectsList :=
  if allow_heap_allocation then none
  else if h : 0 ≤ l.index_ ∧ l.index_ < (kSize : Int) then
    some { circular_queue_ :=
             Function.update l.circular_queue_ ⟨l.index_.toNat, by omega⟩ object,
           index_ := bitAnd (wrapInt32 (l.index_ + 1)) kSizeMask }
  else none

/-- The method `Get(int index)`. -/
def Get (allow_heap_allocation : Bool) (l : HotObjectsList)
    (index : Int) : Option HeapObject :=
  if allow_heap_allocation then none
  else
    match l.slot index with
    | none => none
    | some o => if o.is_null then none else some o

/-- The loop `for (int i = 0; i < kSize; i++)` of `Find`, indexed by the
number of iterations still to run: with `remaining` iterations left the loop
variable is `i = kSize - remaining`, and `remaining = 0` is the exit
`i = kSize` that falls through to `return kNotFound`. -/
def FindLoop (l : HotObjectsList) (object : HeapObject) : Nat → Int
  | 0 => kNotFound
  | remaining + 1 =>
    if l.circular_queue_ ⟨kSize - (remaining + 1), Nat.sub_lt (by decide) (Nat.succ_pos remaining)⟩
        = object then
      ((kSize - (remaining + 1) : Nat) : Int)
    else FindLoop l object remaining

/-- The method `Find(HeapObject object)`. -/
def Find (allow_heap_allocation : Bool) (l : HotObjectsList)
    (object : HeapObject) : Option Int :=
  if allow_heap_allocation then none
  else some (FindLoop l object kSize)

/-- A run of `Add` calls, one per object of the list, in order; `none` as soon
as one of the calls fails. -/
def AddAll (allow_heap_allocation : Bool) :
    HotObjectsList → List HeapObject → Option HotObjectsList
  | l, [] => some l
  | l, object :: rest =>
    match Add allow_heap_allocation l object with
    | none => none
    | some l' => AddAll allow_heap_allocation l' rest

/-- A call of one of the three methods of a `HotObjectsList`. -/
inductive Call where
  | add (object : HeapObject)
  | get (index : Int)
  | find (object : HeapObject)
  deriving DecidableEq

/-- State of the list after a call.  `Add` yields its updated state; the
bodies of `Get` and `Find` assign to no member, so a call of one of them that
passes its assertions leaves the state as it was.  `none` when the call
fails. -/
def applyCall (allow_heap_allocation : Bool) (l : HotObjectsList) :
    Call → Option HotObjectsList
  | Call.add object => Add allow_heap_allocation l object
  | Call.get index =>
    match Get allow_heap_allocation l index with
    | none => none
    | some _ => some l
  | Call.find object =>
    match Find allow_heap_allocation l object with
    | none => none
    | some _ => some l

/-- A run of method calls, in order; `none` as soon as one of them fails. -/
def runCalls (allow_heap_allocation : Bool) :
    HotObjectsList → List Call → Option HotObjectsList
  | l, [] => some l
  | l, call :: rest =>
    match applyCall allow_heap_allocation l call with
    | none => none
    | some l2 => runCalls allow_heap_allocation l2 rest

/-- Number of `Add` calls in a run. -/
def addCalls : List Call → Nat
  | [] => 0
  | Call.add _ :: rest => addCalls rest + 1
  | Call.get _ :: rest => addCalls rest
  | Call.find _ :: rest => addCalls rest

end HotObjectsList

/-! ## The opcode ranges as sets of bytes -/

/-- The bytes `base + i` for `i` in `0 .. count - 1`, in increasing order. -/
def opcodeRange (base count : Int) : List Int :=
  (List.range count.toNat).map (fun (i : Nat) => base + (i : Int))

/-- The bytes `kNewObject + space`, one per space. -/
def newObjectCodes : List Int := opcodeRange kNewObject kNumberOfSpaces

/-- The bytes `kBackref + space`, one per space. -/
def backrefCodes : List Int := opcodeRange kBackref kNumberOfSpaces

/-- The enumerators of `Bytecode` from `kStartupObjectCache` through
`kOffHeapTarget`, in the order of the enum, `kAlignmentPrefix` standing for its
`kAlignmentPrefixCount` consecutive values. -/
def codesThroughOffHeapTarget : List Int :=
  [kStartupObjectCache, kRootArray, kAttachedReference, kReadOnlyObjectCache,
   kNop, kNextChunk, kDeferred] ++
  opcodeRange kAlignmentPrefix kAlignmentPrefixCount ++
  [kSynchronize, kVariableRepeat, kOffHeapBackingStore, kEmbedderFieldsData,
   kVariableRawCode, kVariableRawData, kApiReference, kExternalReference,
   kSandboxedApiReference, kSandboxedExternalReference, kInternalReference,
   kClearedWeakReference, kWeakPrefix, kOffHeapTarget]

/-- The last three enumerators of the single-byte block of `Bytecode`. -/
def forwardRefAndMetaMapCodes : List Int :=
  [kRegisterPendingForwardRef, kResolvePendingForwardRef, kNewMetaMap]

/-- The single-purpose operations of `Bytecode`: every enumerator from
`kStartupObjectCache` through `kNewMetaMap`. -/
def singlePurposeCodes : List Int :=
  codesThroughOffHeapTarget ++ forwardRefAndMetaMapCodes

/-- The bytes `kRootArrayConstants + i`. -/
def rootArrayConstantsCodes : List Int :=
  opcodeRange kRootArrayConstants kRootArrayConstantsCount

/-- The bytes `kFixedRawData + i`. -/
def fixedRawDataCodes : List Int := opcodeRange kFixedRawData kFixedRawDataCount

/-- The bytes `kFixedRepeat + i`. -/
def fixedRepeatCodes : List Int := opcodeRange kFixedRepeat kFixedRepeatCount

/-- The bytes `kHotObject + i`. -/
def hotObjectCodes : List Int := opcodeRange kHotObject kHotObjectCount

/-- The eight sets of bytes into which the opcode table divides `0..255`. -/
def opcodeClasses : List (List Int) :=
  [newObjectCodes, backrefCodes, singlePurposeCodes, rootArrayConstantsCodes,
   fixedRawDataCodes, fixedRepeatCodes, hotObjectCodes,
   UNUSED_SERIALIZER_BYTE_CODES]

/-- Number of the sets of `opcodeClasses` that contain the byte. -/
def classesContaining (b : Int) : Nat :=
  (opcodeClasses.filter (fun c => decide (b ∈ c))).length

/-! ## Machine-integer lemmas -/

theorem wrapInt32_of_isInt32 (x : Int) (h : IsInt32 x) : wrapInt32 x = x := by
  unfold IsInt32 at h
  unfold wrapInt32 toSigned32 toUnsigned32
  split <;> omega

theorem toByte_of_isByte (x : Int) (h : IsByte x) : toByte x = x := by
  unfold IsByte at h
  unfold toByte
  omega

theorem isInRange_iff (v lo hi : Int) : IsInRange v lo hi = true ↔ lo ≤ v ∧ v ≤ hi := by
  simp [IsInRange]

/-! ## Density helpers: unfolding lemmas -/

theorem encodeFixedRawDataSize_eq (s : Int) (h1 : 1 ≤ s) (h2 : s ≤ 32) :
    EncodeFixedRawDataSize s = some (0x60 + (s - 1)) := by
  have hr : IsInRange s kFirstEncodableFixedRawDataSize kLastEncodableFixedRawDataSize = true := by
    rw [isInRange_iff]
    simp only [kFirstEncodableFixedRawDataSize, kLastEncodableFixedRawDataSize, kFixedRawDataCount]
    omega
  rw [EncodeFixedRawDataSize, if_pos hr]
  simp only [kFixedRawData, kFirstEncodableFixedRawDataSize]
  rw [wrapInt32_of_isInt32 _ (by unfold IsInt32; omega), toByte_of_isByte _ (by unfold IsByte; omega)]
  exact congrArg some (by omega)

theorem encodeFixedRawDataSize_none (s : Int) (h : s < 1 ∨ 32 < s) :
    EncodeFixedRawDataSize s = none := by
  have hr : ¬ (IsInRange s kFirstEncodableFixedRawDataSize kLastEncodableFixedRawDataSize = true) := by
    rw [isInRange_iff]
    simp only [kFirstEncodableFixedRawDataSize, kLastEncodableFixedRawDataSize, kFixedRawDataCount]
    omega
  rw [EncodeFixedRawDataSize, if_neg hr]

theorem decodeFixedRawDataSize_eq (b : Int) (h1 : 0x60 ≤ b) (h2 : b ≤ 0x80) :
    DecodeFixedRawDataSize b = some (b - 0x60 + 1) := by
  have hr : IsInRange b (kFixedRawData + 0) (kFixedRawData + kFixedRawDataCount) = true := by
    rw [isInRange_iff]
    simp only [kFixedRawData, kFixedRawDataCount]
    omega
  rw [DecodeFixedRawDataSize, if_pos hr]
  simp only [kFixedRawData, kFirstEncodableFixedRawDataSize]
  rw [wrapInt32_of_isInt32 _ (by unfold IsInt32; omega)]

theorem encodeFixedRepeat_eq (c : Int) (h1 : 2 ≤ c) (h2 : c ≤ 17) :
    EncodeFixedRepeat c = some (0x80 + (c - 2)) := by
  have hr : IsInRange c kFirstEncodableRepeatCount kLastEncodableFixedRepeatCount = true := by
    rw [isInRange_iff]
    simp only [kFirstEncodableRepeatCount, kLastEncodableFixedRepeatCount, kFixedRepeatCount]
    omega
  rw [EncodeFixedRepeat, if_pos hr]
  simp only [kFixedRepeat, kFirstEncodableRepeatCount]
  rw [wrapInt32_of_isInt32 _ (by unfold IsInt32; omega), toByte_of_isByte _ (by unfold IsByte; omega)]
  exact congrArg some (by omega)

theorem encodeFixedRepeat_none (c : Int) (h : c < 2 ∨ 17 < c) :
    EncodeFixedRepeat c = none := by
  have hr : ¬ (IsInRange c kFirstEncodableRepeatCount kLastEncodableFixedRepeatCount = true) := by
    rw [isInRange_iff]
    simp only [kFirstEncodableRepeatCount, kLastEncodableFixedRepeatCount, kFixedRepeatCount]
    omega
  rw [EncodeFixedRepeat, if_neg hr]

theorem decodeFixedRepeatCount_eq (b : Int) (h1 : 0x80 ≤ b) (h2 : b ≤ 0x90) :
    DecodeFixedRepeatCount b = some (b - 0x80 + 2) := by
  have hr : IsInRange b (kFixedRepeat + 0) (kFixedRepeat + kFixedRepeatCount) = true := by
    rw [isInRange_iff]
    simp only [kFixedRepeat, kFixedRepeatCount]
    omega
  rw [DecodeFixedRepeatCount, if_pos hr]
  simp only [kFixedRepeat, kFirstEncodableRepeatCount]
  rw [wrapInt32_of_isInt32 _ (by unfold IsInt32; omega)]

theorem kFirstEncodableVariableRepeatCount_eq : kFirstEncodableVariableRepeatCount = 18 := by
  decide

theorem encodeVariableRepeatCount_eq (c : Int) (h1 : 18 ≤ c) (h2 : c ≤ 2147483647) :
    EncodeVariableRepeatCount c = some (c - 18) := by
  simp only [EncodeVariableRepeatCount, kFirstEncodableVariableRepeatCount_eq, h1, if_true]
  rw [wrapInt32_of_isInt32 _ (by unfold IsInt32; omega)]

theorem encodeVariableRepeatCount_none (c : Int) (h : c < 18) :
    EncodeVariableRepeatCount c = none := by
  have : ¬ (18 ≤ c) := by omega
  simp only [EncodeVariableRepeatCount, kFirstEncodableVariableRepeatCount_eq, this, if_false]

theorem decodeVariableRepeatCount_eq (v : Int) (h1 : 0 ≤ v) (h2 : v ≤ 2147483647 - 18) :
    DecodeVariableRepeatCount v = some (v + 18) := by
  simp only [DecodeVariableRepeatCount, kFirstEncodableVariableRepeatCount_eq, h1, if_true]
  rw [wrapInt32_of_isInt32 _ (by unfold IsInt32; omega)]

/-! ## Density helpers: round trips and accepted ranges -/

/-- C1: `EncodeFixedRawDataSize` and `DecodeFixedRawDataSize` are mutually
inverse between the sizes 1..32 and the bytes 0x60..0x7f.  For every size `s`
in 1..32 the encoder passes its assertion and returns the byte
`kFixedRawData + s - kFirstEncodableFixedRawDataSize`, which lies in
0x60..0x7f (so the conversion to `byte` changes nothing), and the decoder maps
that byte back to `s`; 1 is encoded as 0x60 and 32 as 0x7f; and for every byte
`b` in 0x60..0x7f the decoder returns a size in 1..32 that the encoder maps
back to `b`. -/
theorem fixedRawDataSize_mutually_inverse :
    (∀ s : Int, 1 ≤ s → s ≤ 32 →
      ∃ b : Int, EncodeFixedRawDataSize s = some b ∧
        b = kFixedRawData + s - kFirstEncodableFixedRawDataSize ∧
        0x60 ≤ b ∧ b ≤ 0x7f ∧ DecodeFixedRawDataSize b = some s) ∧
    EncodeFixedRawDataSize 1 = some 0x60 ∧
    EncodeFixedRawDataSize 32 = some 0x7f ∧
    (∀ b : Int, 0x60 ≤ b → b ≤ 0x7f →
      ∃ s : Int, DecodeFixedRawDataSize b = some s ∧ 1 ≤ s ∧ s ≤ 32 ∧
        EncodeFixedRawDataSize s = some b) := by
  refine ⟨?_, by decide, by decide, ?_⟩
  · intro s h1 h2
    refine ⟨0x60 + (s - 1), encodeFixedRawDataSize_eq s h1 h2, ?_, by omega, by omega, ?_⟩
    · simp only [kFixedRawData, kFirstEncodableFixedRawDataSize]; omega
    · rw [decodeFixedRawDataSize_eq _ (by omega) (by omega)]
      exact congrArg some (by omega)
  · intro b h1 h2
    refine ⟨b - 0x60 + 1, decodeFixedRawDataSize_eq b h1 (by omega), by omega, by omega, ?_⟩
    rw [encodeFixedRawDataSize_eq _ (by omega) (by omega)]
    exact congrArg some (by omega)

/-- Instance of C1 at size 7 and at byte 0x6a. -/
theorem fixedRawDataSize_mutually_inverse_witness :
    (∃ b : Int, EncodeFixedRawDataSize 7 = some b ∧
        b = kFixedRawData + 7 - kFirstEncodableFixedRawDataSize ∧
        0x60 ≤ b ∧ b ≤ 0x7f ∧ DecodeFixedRawDataSize b = some 7) ∧
    (∃ s : Int, DecodeFixedRawDataSize 0x6a = some s ∧ 1 ≤ s ∧ s ≤ 32 ∧
        EncodeFixedRawDataSize s = some 0x6a) :=
  ⟨fixedRawDataSize_mutually_inverse.1 7 (by decide) (by decide),
   fixedRawDataSize_mutually_inverse.2.2.2 0x6a (by decide) (by decide)⟩

/-- C2: `EncodeFixedRepeat` and `DecodeFixedRepeatCount` are mutually inverse
between the repeat counts 2..17 and the bytes 0x80..0x8f.  For every count `c`
in 2..17 the encoder passes its assertion and returns the byte
`kFixedRepeat + c - kFirstEncodableRepeatCount`, which lies in 0x80..0x8f (so
the conversion to `byte` changes nothing), and the decoder maps that byte back
to `c`; 2 is encoded as 0x80 and 17 as 0x8f; and for every byte `b` in
0x80..0x8f the decoder returns a count in 2..17 that the encoder maps back to
`b`. -/
theorem fixedRepeat_mutually_inverse :
    (∀ c : Int, 2 ≤ c → c ≤ 17 →
      ∃ b : Int, EncodeFixedRepeat c = some b ∧
        b = kFixedRepeat + c - kFirstEncodableRepeatCount ∧
        0x80 ≤ b ∧ b ≤ 0x8f ∧ DecodeFixedRepeatCount b = some c) ∧
    EncodeFixedRepeat 2 = some 0x80 ∧
    EncodeFixedRepeat 17 = some 0x8f ∧
    (∀ b : Int, 0x80 ≤ b → b ≤ 0x8f →
      ∃ c : Int, DecodeFixedRepeatCount b = some c ∧ 2 ≤ c ∧ c ≤ 17 ∧
        EncodeFixedRepeat c = some b) := by
  refine ⟨?_, by decide, by decide, ?_⟩
  · intro c h1 h2
    refine ⟨0x80 + (c - 2), encodeFixedRepeat_eq c h1 h2, ?_, by omega, by omega, ?_⟩
    · simp only [kFixedRepeat, kFirstEncodableRepeatCount]; omega
    · rw [decodeFixedRepeatCount_eq _ (by omega) (by omega)]
      exact congrArg some (by omega)
  · intro b h1 h2
    refine ⟨b - 0x80 + 2, decodeFixedRepeatCount_eq b h1 (by omega), by omega, by omega, ?_⟩
    rw [encodeFixedRepeat_eq _ (by omega) (by omega)]
    exact congrArg some (by omega)

/-- Instance of C2 at count 9 and at byte 0x8c. -/
theorem fixedRepeat_mutually_inverse_witness :
    (∃ b : Int, EncodeFixedRepeat 9 = some b ∧
        b = kFixedRepeat + 9 - kFirstEncodableRepeatCount ∧
        0x80 ≤ b ∧ b ≤ 0x8f ∧ DecodeFixedRepeatCount b = some 9) ∧
    (∃ c : Int, DecodeFixedRepeatCount 0x8c = some c ∧ 2 ≤ c ∧ c ≤ 17 ∧
        EncodeFixedRepeat c = some 0x8c) :=
  ⟨fixedRepeat_mutually_inverse.1 9 (by decide) (by decide),
   fixedRepeat_mutually_inverse.2.2.2 0x8c (by decide) (by decide)⟩

/-- C3: for every `int` repeat count `c ≥ 18`, `EncodeVariableRepeatCount`
passes its assertion and returns the non-negative value `c - 18`, that stored
value passes the assertion of `DecodeVariableRepeatCount`, and decoding it
gives `c` back; in particular 18 is stored as 0. -/
theorem variableRepeatCount_encode_then_decode :
    (∀ c : Int, IsInt32 c → 18 ≤ c →
      ∃ v : Int, EncodeVariableRepeatCount c = some v ∧ v = c - 18 ∧ 0 ≤ v ∧
        DecodeVariableRepeatCount v = some c) ∧
    EncodeVariableRepeatCount 18 = some 0 := by
  refine ⟨?_, by decide⟩
  intro c hc h
  have hmax : c ≤ 2147483647 := hc.2
  refine ⟨c - 18, encodeVariableRepeatCount_eq c h hmax, rfl, by omega, ?_⟩
  rw [decodeVariableRepeatCount_eq _ (by omega) (by omega)]
  exact congrArg some (by omega)

/-- Instance of C3 at the largest `int`, 2147483647. -/
theorem variableRepeatCount_encode_then_decode_witness :
    ∃ v : Int, EncodeVariableRepeatCount 2147483647 = some v ∧
      v = 2147483647 - 18 ∧ 0 ≤ v ∧
      DecodeVariableRepeatCount v = some 2147483647 :=
  variableRepeatCount_encode_then_decode.1 2147483647 (by decide) (by decide)

/-- C9: `EncodeFixedRawDataSize` fails its assertion exactly when its argument
is outside 1..32: it succeeds for every size in 1..32, and fails for every
size `≤ 0` and every size `≥ 33`, 33 included. -/
theorem encodeFixedRawDataSize_fails_iff :
    (∀ s : Int, EncodeFixedRawDataSize s = none ↔ ¬ (1 ≤ s ∧ s ≤ 32)) ∧
    (∀ s : Int, 1 ≤ s → s ≤ 32 → (EncodeFixedRawDataSize s).isSome = true) ∧
    (∀ s : Int, s ≤ 0 → EncodeFixedRawDataSize s = none) ∧
    (∀ s : Int, 33 ≤ s → EncodeFixedRawDataSize s = none) ∧
    EncodeFixedRawDataSize 33 = none := by
  refine ⟨?_, ?_, ?_, ?_, by decide⟩
  · intro s
    constructor
    · intro hn hs
      rw [encodeFixedRawDataSize_eq s hs.1 hs.2] at hn
      exact Option.noConfusion hn
    · intro hs
      exact encodeFixedRawDataSize_none s (by omega)
  · intro s h1 h2
    rw [encodeFixedRawDataSize_eq s h1 h2]; rfl
  · intro s h
    exact encodeFixedRawDataSize_none s (by omega)
  · intro s h
    exact encodeFixedRawDataSize_none s (by omega)

/-- Instance of C9 at the sizes 0, 32 and 2147483647. -/
theorem encodeFixedRawDataSize_fails_iff_witness :
    EncodeFixedRawDataSize 0 = none ∧
    (EncodeFixedRawDataSize 32).isSome = true ∧
    EncodeFixedRawDataSize 2147483647 = none :=
  ⟨encodeFixedRawDataSize_fails_iff.2.2.1 0 (by decide),
   encodeFixedRawDataSize_fails_iff.2.1 32 (by decide) (by decide),
   encodeFixedRawDataSize_fails_iff.2.2.2.1 2147483647 (by decide)⟩

/-- C10: the fixed and the variable repeat encoder split the repeat counts
without gap or overlap.  For every count `c`, `EncodeFixedRepeat` accepts `c`
exactly when `2 ≤ c ≤ 17` and `EncodeVariableRepeatCount` accepts `c` exactly
when `c ≥ 18`; so every `c ≥ 2` is accepted by exactly one of the two and
every `c < 2` by neither. -/
theorem repeat_encoders_split (c : Int) :
    ((EncodeFixedRepeat c).isSome = true ↔ 2 ≤ c ∧ c ≤ 17) ∧
    ((EncodeVariableRepeatCount c).isSome = true ↔ 18 ≤ c) ∧
    (2 ≤ c →
      ((EncodeFixedRepeat c).isSome = true ∧ ¬ (EncodeVariableRepeatCount c).isSome = true) ∨
      (¬ (EncodeFixedRepeat c).isSome = true ∧ (EncodeVariableRepeatCount c).isSome = true)) ∧
    (c < 2 → EncodeFixedRepeat c = none ∧ EncodeVariableRepeatCount c = none) := by
  have hf : (EncodeFixedRepeat c).isSome = true ↔ 2 ≤ c ∧ c ≤ 17 := by
    constructor
    · intro h
      by_contra hc
      rw [encodeFixedRepeat_none c (by omega)] at h
      exact Bool.noConfusion h
    · intro h
      rw [encodeFixedRepeat_eq c h.1 h.2]; rfl
  have hv : (EncodeVariableRepeatCount c).isSome = true ↔ 18 ≤ c := by
    constructor
    · intro h
      by_contra hc
      rw [encodeVariableRepeatCount_none c (by omega)] at h
      exact Bool.noConfusion h
    · intro h
      simp only [EncodeVariableRepeatCount, kFirstEncodableVariableRepeatCount_eq, h, if_true]
      rfl
  refine ⟨hf, hv, ?_, ?_⟩
  · intro h2
    rw [hf, hv]
    omega
  · intro h
    exact ⟨encodeFixedRepeat_none c (by omega), encodeVariableRepeatCount_none c (by omega)⟩

/-- Instance of C10 at the boundary counts 17 and 18 and at the count 1. -/
theorem repeat_encoders_split_witness :
    (((EncodeFixedRepeat 17).isSome = true ∧ ¬ (EncodeVariableRepeatCount 17).isSome = true) ∨
      (¬ (EncodeFixedRepeat 17).isSome = true ∧ (EncodeVariableRepeatCount 17).isSome = true)) ∧
    (((EncodeFixedRepeat 18).isSome = true ∧ ¬ (EncodeVariableRepeatCount 18).isSome = true) ∨
      (¬ (EncodeFixedRepeat 18).isSome = true ∧ (EncodeVariableRepeatCount 18).isSome = true)) ∧
    (EncodeFixedRepeat 1 = none ∧ EncodeVariableRepeatCount 1 = none) :=
  ⟨(repeat_encoders_split 17).2.2.1 (by decide),
   (repeat_encoders_split 18).2.2.1 (by decide),
   (repeat_encoders_split 1).2.2.2 (by decide)⟩

/-! ## Opcode table -/

theorem mem_opcodeRange (base count b : Int) :
    b ∈ opcodeRange base count ↔ base ≤ b ∧ b < base + (count.toNat : Int) := by
  unfold opcodeRange
  constructor
  · intro h
    obtain ⟨i, hi, rfl⟩ := List.mem_map.1 h
    have := List.mem_range.1 hi
    omega
  · intro h
    refine List.mem_map.2 ⟨(b - base).toNat, List.mem_range.2 ?_, ?_⟩ <;> omega

theorem singlePurposeCodes_eq : singlePurposeCodes = opcodeRange 0x10 27 := by decide

theorem unused_eq :
    UNUSED_SERIALIZER_BYTE_CODES =
      opcodeRange 0x06 2 ++ opcodeRange 0x0e 2 ++ opcodeRange 0x2b 21 ++
        opcodeRange 0x98 104 := by
  decide

theorem mem_newObjectCodes (b : Int) : b ∈ newObjectCodes ↔ 0x00 ≤ b ∧ b ≤ 0x05 := by
  rw [newObjectCodes, mem_opcodeRange]
  simp only [kNewObject, kNumberOfSpaces]; omega

theorem mem_backrefCodes (b : Int) : b ∈ backrefCodes ↔ 0x08 ≤ b ∧ b ≤ 0x0d := by
  rw [backrefCodes, mem_opcodeRange]
  simp only [kBackref, kNumberOfSpaces]; omega

theorem mem_singlePurposeCodes (b : Int) : b ∈ singlePurposeCodes ↔ 0x10 ≤ b ∧ b ≤ 0x2a := by
  rw [singlePurposeCodes_eq, mem_opcodeRange]; omega

theorem mem_rootArrayConstantsCodes (b : Int) :
    b ∈ rootArrayConstantsCodes ↔ 0x40 ≤ b ∧ b ≤ 0x5f := by
  rw [rootArrayConstantsCodes, mem_opcodeRange]
  simp only [kRootArrayConstants, kRootArrayConstantsCount]; omega

theorem mem_fixedRawDataCodes (b : Int) : b ∈ fixedRawDataCodes ↔ 0x60 ≤ b ∧ b ≤ 0x7f := by
  rw [fixedRawDataCodes, mem_opcodeRange]
  simp only [kFixedRawData, kFixedRawDataCount]; omega

theorem mem_fixedRepeatCodes (b : Int) : b ∈ fixedRepeatCodes ↔ 0x80 ≤ b ∧ b ≤ 0x8f := by
  rw [fixedRepeatCodes, mem_opcodeRange]
  simp only [kFixedRepeat, kFixedRepeatCount]; omega

theorem mem_hotObjectCodes (b : Int) : b ∈ hotObjectCodes ↔ 0x90 ≤ b ∧ b ≤ 0x97 := by
  rw [hotObjectCodes, mem_opcodeRange]
  simp only [kHotObject, kHotObjectCount]; omega

theorem mem_unused (b : Int) :
    b ∈ UNUSED_SERIALIZER_BYTE_CODES ↔
      (0x06 ≤ b ∧ b ≤ 0x07) ∨ (0x0e ≤ b ∧ b ≤ 0x0f) ∨ (0x2b ≤ b ∧ b ≤ 0x3f) ∨
        (0x98 ≤ b ∧ b ≤ 0xff) := by
  rw [unused_eq]
  simp only [List.mem_append, mem_opcodeRange]; omega

theorem classesContaining_eq (b : Int) :
    classesContaining b =
      (if 0x00 ≤ b ∧ b ≤ 0x05 then 1 else 0) + (if 0x08 ≤ b ∧ b ≤ 0x0d then 1 else 0) +
      (if 0x10 ≤ b ∧ b ≤ 0x2a then 1 else 0) + (if 0x40 ≤ b ∧ b ≤ 0x5f then 1 else 0) +
      (if 0x60 ≤ b ∧ b ≤ 0x7f then 1 else 0) + (if 0x80 ≤ b ∧ b ≤ 0x8f then 1 else 0) +
      (if 0x90 ≤ b ∧ b ≤ 0x97 then 1 else 0) +
      (if (0x06 ≤ b ∧ b ≤ 0x07) ∨ (0x0e ≤ b ∧ b ≤ 0x0f) ∨ (0x2b ≤ b ∧ b ≤ 0x3f) ∨
        (0x98 ≤ b ∧ b ≤ 0xff) then 1 else 0) := by
  have flen : ∀ (p : List Int → Bool) (c : List Int) (cs : List (List Int)),
      ((c :: cs).filter p).length = (if p c = true then 1 else 0) + (cs.filter p).length := by
    intro p c cs
    by_cases h : p c = true
    · simp [List.filter_cons, h]; omega
    · simp [List.filter_cons, h]
  simp only [classesContaining, opcodeClasses, flen, List.filter_nil, List.length_nil,
    decide_eq_true_eq, mem_newObjectCodes, mem_backrefCodes, mem_singlePurposeCodes,
    mem_rootArrayConstantsCodes, mem_fixedRawDataCodes, mem_fixedRepeatCodes,
    mem_hotObjectCodes, mem_unused]
  omega

/-- C4: the opcode ranges partition 0..255 exactly.  Every byte from 0 to 255
lies in exactly one of the eight sets of `opcodeClasses` (the new-object
bytes, the backreference bytes, the single-byte operations from
`kStartupObjectCache` through `kNewMetaMap` with `kAlignmentPrefix` taking
`kAlignmentPrefixCount` values, the root-array constants, the fixed raw data
bytes, the fixed repeat bytes, the hot-object bytes, and
`UNUSED_SERIALIZER_BYTE_CODES`), and these sets hold nothing but bytes. -/
theorem opcode_ranges_partition :
    (∀ b : Int, 0 ≤ b → b ≤ 255 → classesContaining b = 1) ∧
    (∀ c ∈ opcodeClasses, ∀ b ∈ c, 0 ≤ b ∧ b ≤ 255) := by
  constructor
  · intro b h1 h2
    rw [classesContaining_eq]
    split_ifs <;> omega
  · intro c hc b hb
    simp only [opcodeClasses, List.mem_cons, List.mem_singleton, List.not_mem_nil,
      or_false] at hc
    rcases hc with rfl | rfl | rfl | rfl | rfl | rfl | rfl | rfl
    · rw [mem_newObjectCodes] at hb; omega
    · rw [mem_backrefCodes] at hb; omega
    · rw [mem_singlePurposeCodes] at hb; omega
    · rw [mem_rootArrayConstantsCodes] at hb; omega
    · rw [mem_fixedRawDataCodes] at hb; omega
    · rw [mem_fixedRepeatCodes] at hb; omega
    · rw [mem_hotObjectCodes] at hb; omega
    · rw [mem_unused] at hb; omega

/-- Instance of C4 at the byte 0x2a (`kNewMetaMap`) and at the unused byte
0x2b. -/
theorem opcode_ranges_partition_witness :
    classesContaining 0x2a = 1 ∧ classesContaining 0x2b = 1 ∧
    (0 ≤ (0x98 : Int) ∧ (0x98 : Int) ≤ 255) :=
  ⟨opcode_ranges_partition.1 0x2a (by decide) (by decide),
   opcode_ranges_partition.1 0x2b (by decide) (by decide),
   opcode_ranges_partition.2 UNUSED_SERIALIZER_BYTE_CODES (by decide) 0x98 (by decide)⟩

/-- C5, as stated, fails: `kNewMetaMap` is one of the single-purpose
operations and its value 0x2a is above 0x27. -/
theorem singlePurposeCodes_exceed_0x27 :
    kNewMetaMap ∈ singlePurposeCodes ∧ kNewMetaMap = 0x2a ∧
    ¬ (0x10 ≤ kNewMetaMap ∧ kNewMetaMap ≤ 0x27) := by
  decide

/-- C5, amended: every single-purpose operation of `Bytecode`, from
`kStartupObjectCache` through `kNewMetaMap`, has a byte value in 0x10..0x2a;
those from `kStartupObjectCache` through `kOffHeapTarget` lie in 0x10..0x27,
and `kRegisterPendingForwardRef`, `kResolvePendingForwardRef` and
`kNewMetaMap` are 0x28, 0x29 and 0x2a. -/
theorem singlePurposeCodes_range :
    (∀ b ∈ singlePurposeCodes, 0x10 ≤ b ∧ b ≤ 0x2a) ∧
    (∀ b ∈ codesThroughOffHeapTarget, 0x10 ≤ b ∧ b ≤ 0x27) ∧
    kRegisterPendingForwardRef = 0x28 ∧ kResolvePendingForwardRef = 0x29 ∧
    kNewMetaMap = 0x2a := by
  decide

/-- Instance of the amended C5 at `kNop` and at `kOffHeapTarget`. -/
theorem singlePurposeCodes_range_witness :
    (0x10 ≤ kNop ∧ kNop ≤ 0x2a) ∧ (0x10 ≤ kOffHeapTarget ∧ kOffHeapTarget ≤ 0x27) :=
  ⟨singlePurposeCodes_range.1 kNop (by decide),
   singlePurposeCodes_range.2.1 kOffHeapTarget (by decide)⟩

/-- C6: for every region `s` in 0..5, `BytecodeWithSpace` passes both
assertions on `kNewObject` and on `kBackref` and returns `base + s`, a byte in
0x00..0x05 for `kNewObject` and in 0x08..0x0d for `kBackref`; from the merged
byte `m` the pair is recovered as `s = m & kSpaceMask` and
`base = m & ~kSpaceMask`; hence bases and regions that merge to the same byte
are equal. -/
theorem bytecodeWithSpace_merge_recover :
    (∀ s : Int, 0 ≤ s → s ≤ 5 →
      BytecodeWithSpace s kNewObject = some (kNewObject + s) ∧
      (0x00 ≤ kNewObject + s ∧ kNewObject + s ≤ 0x05) ∧
      BytecodeWithSpace s kBackref = some (kBackref + s) ∧
      (0x08 ≤ kBackref + s ∧ kBackref + s ≤ 0x0d)) ∧
    (∀ base : Int, base = kNewObject ∨ base = kBackref →
      ∀ s : Int, 0 ≤ s → s ≤ 5 →
      ∀ m : Int, BytecodeWithSpace s base = some m →
        bitAnd m kSpaceMask = s ∧ bitAnd m (bitNot kSpaceMask) = base) ∧
    (∀ base base' : Int, base = kNewObject ∨ base = kBackref →
      base' = kNewObject ∨ base' = kBackref →
      ∀ s s' : Int, 0 ≤ s → s ≤ 5 → 0 ≤ s' → s' ≤ 5 →
        BytecodeWithSpace s base = BytecodeWithSpace s' base' →
        base = base' ∧ s = s') := by
  have hmerge : ∀ s : Int, 0 ≤ s → s ≤ 5 →
      BytecodeWithSpace s kNewObject = some (kNewObject + s) ∧
      (0x00 ≤ kNewObject + s ∧ kNewObject + s ≤ 0x05) ∧
      BytecodeWithSpace s kBackref = some (kBackref + s) ∧
      (0x08 ≤ kBackref + s ∧ kBackref + s ≤ 0x0d) := by
    intro s h1 h2
    interval_cases s <;> decide
  have hrec : ∀ base : Int, base = kNewObject ∨ base = kBackref →
      ∀ s : Int, 0 ≤ s → s ≤ 5 →
      ∀ m : Int, BytecodeWithSpace s base = some m →
        bitAnd m kSpaceMask = s ∧ bitAnd m (bitNot kSpaceMask) = base := by
    intro base hb s h1 h2 m hm
    rcases hb with rfl | rfl
    · rw [(hmerge s h1 h2).1] at hm
      cases hm
      interval_cases s <;> decide
    · rw [(hmerge s h1 h2).2.2.1] at hm
      cases hm
      interval_cases s <;> decide
  refine ⟨hmerge, hrec, ?_⟩
  intro base base' hb hb' s s' h1 h2 h1' h2' heq
  have hs : ∃ m, BytecodeWithSpace s base = some m := by
    rcases hb with rfl | rfl
    · exact ⟨_, (hmerge s h1 h2).1⟩
    · exact ⟨_, (hmerge s h1 h2).2.2.1⟩
  obtain ⟨m, hm⟩ := hs
  have r := hrec base hb s h1 h2 m hm
  have r' := hrec base' hb' s' h1' h2' m (heq ▸ hm)
  exact ⟨r.2.symm.trans r'.2, r.1.symm.trans r'.1⟩

/-- Instance of C6 at region 5 with base `kBackref`, whose merged byte is
0x0d. -/
theorem bytecodeWithSpace_merge_recover_witness :
    (BytecodeWithSpace 5 kNewObject = some (kNewObject + 5) ∧
      (0x00 ≤ kNewObject + 5 ∧ kNewObject + 5 ≤ 0x05) ∧
      BytecodeWithSpace 5 kBackref = some (kBackref + 5) ∧
      (0x08 ≤ kBackref + 5 ∧ kBackref + 5 ≤ 0x0d)) ∧
    (bitAnd 0x0d kSpaceMask = 5 ∧ bitAnd 0x0d (bitNot kSpaceMask) = kBackref) :=
  ⟨bytecodeWithSpace_merge_recover.1 5 (by decide) (by decide),
   bytecodeWithSpace_merge_recover.2.1 kBackref (Or.inr rfl) 5 (by decide) (by decide)
     0x0d (by decide)⟩

end v8.internal

namespace v8.internal.HotObjectsList

/-! ## `HotObjectsList`: the scan of `Find` -/

theorem kSize_eq : kSize = 8 := rfl

theorem findLoop_succ (l : HotObjectsList) (o : HeapObject) (r : Nat) :
    FindLoop l o (r + 1) =
      if l.circular_queue_ ⟨kSize - (r + 1), Nat.sub_lt (by decide) (Nat.succ_pos r)⟩ = o then
        ((kSize - (r + 1) : Nat) : Int)
      else FindLoop l o r := rfl

/-- The scan over the last `r` slots either finds nothing, and then none of
them holds the object, or returns the first of them that holds it. -/
theorem findLoop_spec (l : HotObjectsList) (o : HeapObject) :
    ∀ r : Nat, r ≤ kSize →
      (FindLoop l o r = kNotFound ∧
        ∀ j : Fin kSize, kSize - r ≤ j.val → l.circular_queue_ j ≠ o) ∨
      (∃ j : Fin kSize, FindLoop l o r = (j.val : Int) ∧ kSize - r ≤ j.val ∧
        l.circular_queue_ j = o ∧
        ∀ j2 : Fin kSize, kSize - r ≤ j2.val → j2.val < j.val → l.circular_queue_ j2 ≠ o) := by
  intro r
  induction r with
  | zero =>
    intro _
    left
    refine ⟨rfl, ?_⟩
    intro j hj
    have := j.isLt
    omega
  | succ r ih =>
    intro hr
    have hk := kSize_eq
    rw [findLoop_succ]
    by_cases h : l.circular_queue_
        ⟨kSize - (r + 1), Nat.sub_lt (by decide) (Nat.succ_pos r)⟩ = o
    · right
      rw [if_pos h]
      refine ⟨⟨kSize - (r + 1), Nat.sub_lt (by decide) (Nat.succ_pos r)⟩, rfl, le_refl _, h, ?_⟩
      intro j2 h1 h2
      simp only at h2
      omega
    · rw [if_neg h]
      have hfirst : ∀ j : Fin kSize, kSize - (r + 1) ≤ j.val → ¬ (kSize - r ≤ j.val) →
          l.circular_queue_ j ≠ o := by
        intro j h1 h2
        have hj : j = ⟨kSize - (r + 1), Nat.sub_lt (by decide) (Nat.succ_pos r)⟩ := by
          apply Fin.ext
          simp only
          omega
        rw [hj]
        exact h
      rcases ih (by omega) with ⟨hnf, hall⟩ | ⟨j, hj, hge, hq, hmin⟩
      · left
        refine ⟨hnf, ?_⟩
        intro j hj
        by_cases hc : kSize - r ≤ j.val
        · exact hall j hc
        · exact hfirst j hj hc
      · right
        refine ⟨j, hj, by omega, hq, ?_⟩
        intro j2 h1 h2
        by_cases hc : kSize - r ≤ j2.val
        · exact hmin j2 hc h2
        · exact hfirst j2 h1 hc

theorem kNotFound_ne_index (j : Fin kSize) : ((j.val : Nat) : Int) ≠ kNotFound := by
  unfold kNotFound
  omega

/-- A result of `Find` other than `kNotFound` is a slot that holds the
object. -/
theorem findLoop_found (l : HotObjectsList) (o : HeapObject) (h : FindLoop l o kSize ≠ kNotFound) :
    ∃ j : Fin kSize, FindLoop l o kSize = (j.val : Int) ∧ l.circular_queue_ j = o := by
  rcases findLoop_spec l o kSize (le_refl _) with ⟨hnf, _⟩ | ⟨j, hj, _, hq, _⟩
  · exact absurd hnf h
  · exact ⟨j, hj, hq⟩

/-- The scan returns `kNotFound` exactly when no slot holds the object. -/
theorem findLoop_eq_kNotFound_iff (l : HotObjectsList) (o : HeapObject) :
    FindLoop l o kSize = kNotFound ↔ ∀ j : Fin kSize, l.circular_queue_ j ≠ o := by
  rcases findLoop_spec l o kSize (le_refl _) with ⟨hnf, hall⟩ | ⟨j, hj, _, hq, _⟩
  · constructor
    · intro _ j
      exact hall j (by omega)
    · intro _
      exact hnf
  · constructor
    · intro h
      rw [hj] at h
      exact absurd h (kNotFound_ne_index j)
    · intro h
      exact absurd hq (h j)

theorem find_eq (l : HotObjectsList) (o : HeapObject) :
    Find false l o = some (FindLoop l o kSize) := rfl

/-! ## `HotObjectsList`: slots, `Get` and `Add` -/

theorem slot_fin (l : HotObjectsList) (j : Fin kSize) :
    l.slot (j.val : Int) = some (l.circular_queue_ j) := by
  have hj := j.isLt
  have h : 0 ≤ ((j.val : Nat) : Int) ∧ ((j.val : Nat) : Int) < (kSize : Int) := by
    constructor <;> omega
  unfold slot
  rw [dif_pos h]
  congr

theorem get_fin (l : HotObjectsList) (j : Fin kSize) :
    Get false l (j.val : Int) =
      if (l.circular_queue_ j).is_null = true then none else some (l.circular_queue_ j) := by
  unfold Get
  rw [slot_fin]
  rfl

theorem add_eq (l : HotObjectsList) (o : HeapObject) (i : Fin kSize)
    (hi : l.index_ = (i.val : Int)) :
    Add false l o =
      some { circular_queue_ := Function.update l.circular_queue_ i o,
             index_ := (((i.val + 1) % 8 : Nat) : Int) } := by
  have hlt := i.isLt
  have hk := kSize_eq
  have h : 0 ≤ l.index_ ∧ l.index_ < (kSize : Int) := by
    rw [hi]; constructor <;> omega
  have hfin : (⟨l.index_.toNat, by omega⟩ : Fin kSize) = i := by
    apply Fin.ext
    simp only [hi, Int.toNat_ofNat]
  have hidx : bitAnd (wrapInt32 (l.index_ + 1)) kSizeMask = (((i.val + 1) % 8 : Nat) : Int) := by
    rw [hi]
    obtain ⟨i, hi2⟩ := i
    simp only
    rw [hk] at hi2
    interval_cases i <;> decide
  unfold Add
  simp only [Bool.false_eq_true, if_false]
  rw [dif_pos h, hfin, hidx]

theorem addAll_append (l : HotObjectsList) (xs ys : List HeapObject) :
    AddAll false l (xs ++ ys) =
      (AddAll false l xs).bind (fun l2 => AddAll false l2 ys) := by
  induction xs generalizing l with
  | nil => rfl
  | cons x xs ih =>
    simp only [List.cons_append, AddAll]
    cases Add false l x with
    | none => rfl
    | some l2 => exact ih l2

/-- State after a run of `Add` calls on a fresh list: every call succeeds,
the cursor is the number of calls modulo 8, and slot `j` is still null when
fewer than `j + 1` objects were added and otherwise holds the object added
last at a position congruent to `j` modulo 8. -/
theorem addAll_init_spec (os : List HeapObject) :
    ∃ l : HotObjectsList, AddAll false init os = some l ∧
      l.index_ = (((os.length % 8 : Nat)) : Int) ∧
      ∀ j : Fin kSize,
        (os.length ≤ j.val ∧ l.circular_queue_ j = HeapObject.null) ∨
        (∃ m : Nat, m < os.length ∧ os.length ≤ m + 8 ∧ m % 8 = j.val ∧
          os[m]? = some (l.circular_queue_ j)) := by
  induction os using List.reverseRecOn with
  | nil =>
    refine ⟨init, rfl, rfl, ?_⟩
    intro j
    left
    exact ⟨Nat.zero_le _, rfl⟩
  | append_singleton xs x ih =>
    obtain ⟨l, hl, hidx, hslots⟩ := ih
    have hk := kSize_eq
    have hadd := add_eq l x ⟨xs.length % 8, by omega⟩ hidx
    refine ⟨{ circular_queue_ := Function.update l.circular_queue_ ⟨xs.length % 8, by omega⟩ x,
              index_ := (((xs.length % 8 + 1) % 8 : Nat) : Int) }, ?_, ?_, ?_⟩
    · rw [addAll_append, hl]
      simp only [Option.bind, AddAll, hadd]
    · simp only [List.length_append, List.length_singleton]
      congr 1
      omega
    · intro j
      have hjlt := j.isLt
      simp only [List.length_append, List.length_singleton]
      by_cases hj : j = ⟨xs.length % 8, by omega⟩
      · right
        refine ⟨xs.length, by omega, by omega, ?_, ?_⟩
        · rw [hj]
        · rw [hj, Function.update_same]
          exact List.getElem?_concat_length xs x
      · have hjv : j.val ≠ xs.length % 8 := by
          intro hc
          exact hj (Fin.ext hc)
        rw [Function.update_noteq hj]
        rcases hslots j with ⟨h1, h2⟩ | ⟨m, h1, h2, h3, h4⟩
        · left
          refine ⟨?_, h2⟩
          omega
        · right
          refine ⟨m, by omega, by omega, h3, ?_⟩
          rw [List.getElem?_append_left h1]
          exact h4

/-! ## `HotObjectsList`: lookup after a run of `Add` calls -/

/-- C7: hot-object lookup is consistent.  After any sequence `os` of `Add`
calls on a fresh list (every call succeeds) and for every non-null object
`o`, `Find(o)` returns a value `i`, and if `i` is not `kNotFound` then
`0 ≤ i < 8`, `Get(i)` passes its assertion and returns `o`; and a decoder
whose list received the same `Add` sequence gets `o` from `Get(i)` as well. -/
theorem hot_object_lookup_consistent (os : List HeapObject) (o : HeapObject)
    (ho : o.is_null = false) :
    ∃ enc : HotObjectsList, AddAll false init os = some enc ∧
      ∃ i : Int, Find false enc o = some i ∧
        (i ≠ kNotFound →
          (0 ≤ i ∧ i < 8) ∧ Get false enc i = some o ∧
          ∀ dec : HotObjectsList, AddAll false init os = some dec →
            Get false dec i = some o) := by
  obtain ⟨l, hl, _, _⟩ := addAll_init_spec os
  refine ⟨l, hl, FindLoop l o kSize, find_eq l o, ?_⟩
  intro hne
  obtain ⟨j, hj, hq⟩ := findLoop_found l o hne
  have hjlt := j.isLt
  have hk := kSize_eq
  have hget : Get false l (FindLoop l o kSize) = some o := by
    rw [hj, get_fin, hq, ho]
    rfl
  refine ⟨?_, hget, ?_⟩
  · rw [hj]
    constructor <;> omega
  · intro dec hdec
    have : dec = l := Option.some.inj (hdec.symm.trans hl)
    rw [this]
    exact hget

/-- Instance of C7: after adding the objects 1, 2, 3 the object 2 is found in
slot 1. -/
theorem hot_object_lookup_consistent_witness :
    (∃ enc : HotObjectsList,
      AddAll false init [⟨1⟩, ⟨2⟩, ⟨3⟩] = some enc ∧
      ∃ i : Int, Find false enc ⟨2⟩ = some i ∧
        (i ≠ kNotFound →
          (0 ≤ i ∧ i < 8) ∧ Get false enc i = some ⟨2⟩ ∧
          ∀ dec : HotObjectsList, AddAll false init [⟨1⟩, ⟨2⟩, ⟨3⟩] = some dec →
            Get false dec i = some ⟨2⟩)) ∧
    (AddAll false init [⟨1⟩, ⟨2⟩, ⟨3⟩]).bind (fun l => Find false l ⟨2⟩) = some 1 :=
  ⟨hot_object_lookup_consistent [⟨1⟩, ⟨2⟩, ⟨3⟩] ⟨2⟩ (by decide), by decide⟩

/-- C8: the list holds exactly the most recent 8 additions.  Let `os` be a
sequence of pairwise distinct non-null objects, added in order to a fresh
list (every call succeeds), `n` its length.  For the object `os[k]`, which is
the `(k+1)`-th added, `Find` returns a value other than `kNotFound` if and
only if `k + 1 > n - 8`; and `Find(x)` is `kNotFound` for every non-null
object `x` that was never added. -/
theorem hot_objects_hold_last_eight (os : List HeapObject) (hd : os.Nodup)
    (hn : ∀ o ∈ os, o.is_null = false) :
    ∃ l : HotObjectsList, AddAll false init os = some l ∧
      (∀ (k : Nat) (hk : k < os.length),
        ∃ i : Int, Find false l os[k] = some i ∧
          (i ≠ kNotFound ↔ (k : Int) + 1 > (os.length : Int) - 8)) ∧
      (∀ x : HeapObject, x.is_null = false → x ∉ os →
        Find false l x = some kNotFound) := by
  obtain ⟨l, hl, _, hslots⟩ := addAll_init_spec os
  have hk8 := kSize_eq
  refine ⟨l, hl, ?_, ?_⟩
  · intro k hk
    refine ⟨FindLoop l os[k] kSize, find_eq l _, ?_⟩
    rw [Ne, findLoop_eq_kNotFound_iff]
    constructor
    · intro hex
      have hex2 : ∃ j : Fin kSize, l.circular_queue_ j = os[k] := by
        by_contra hc
        exact hex (fun j hj => hc ⟨j, hj⟩)
      obtain ⟨j, hj⟩ := hex2
      rcases hslots j with ⟨_, hnull⟩ | ⟨m, h1, h2, _, h4⟩
      · have h0 := hn os[k] (List.getElem_mem hk)
        rw [← hj, hnull] at h0
        exact absurd h0 (by decide)
      · have hmk : m = k := by
          apply List.getElem?_inj h1 hd
          rw [h4, hj, List.getElem?_eq_getElem hk]
        omega
    · intro hrecent habs
      have hklt : k % 8 < kSize := by omega
      rcases hslots ⟨k % 8, hklt⟩ with ⟨h1, _⟩ | ⟨m, h1, h2, h3, h4⟩
      · simp only at h1
        omega
      · simp only at h3
        have hmk : m = k := by omega
        rw [hmk, List.getElem?_eq_getElem hk] at h4
        exact habs ⟨k % 8, hklt⟩ (Option.some.inj h4).symm
  · intro x hx hxmem
    rw [find_eq]
    congr 1
    rw [findLoop_eq_kNotFound_iff]
    intro j hj
    rcases hslots j with ⟨_, hnull⟩ | ⟨m, _, _, _, h4⟩
    · rw [← hj, hnull] at hx
      exact absurd hx (by decide)
    · rw [hj] at h4
      exact hxmem (List.getElem?_mem h4)

/-- Instance of C8: after adding the nine objects 1..9, the first one has
been evicted and the ninth is found (in slot 0). -/
theorem hot_objects_hold_last_eight_witness :
    (∃ l : HotObjectsList,
      AddAll false init [⟨1⟩, ⟨2⟩, ⟨3⟩, ⟨4⟩, ⟨5⟩, ⟨6⟩, ⟨7⟩, ⟨8⟩, ⟨9⟩] = some l ∧
      (∀ (k : Nat) (hk : k < [(⟨1⟩ : HeapObject), ⟨2⟩, ⟨3⟩, ⟨4⟩, ⟨5⟩, ⟨6⟩, ⟨7⟩, ⟨8⟩, ⟨9⟩].length),
        ∃ i : Int,
          Find false l [(⟨1⟩ : HeapObject), ⟨2⟩, ⟨3⟩, ⟨4⟩, ⟨5⟩, ⟨6⟩, ⟨7⟩, ⟨8⟩, ⟨9⟩][k] = some i ∧
          (i ≠ kNotFound ↔
            (k : Int) + 1 >
              (([(⟨1⟩ : HeapObject), ⟨2⟩, ⟨3⟩, ⟨4⟩, ⟨5⟩, ⟨6⟩, ⟨7⟩, ⟨8⟩, ⟨9⟩].length : Nat) : Int) - 8)) ∧
      (∀ x : HeapObject, x.is_null = false →
        x ∉ [(⟨1⟩ : HeapObject), ⟨2⟩, ⟨3⟩, ⟨4⟩, ⟨5⟩, ⟨6⟩, ⟨7⟩, ⟨8⟩, ⟨9⟩] →
        Find false l x = some kNotFound)) ∧
    (AddAll false init [⟨1⟩, ⟨2⟩, ⟨3⟩, ⟨4⟩, ⟨5⟩, ⟨6⟩, ⟨7⟩, ⟨8⟩, ⟨9⟩]).bind
        (fun l => Find false l ⟨1⟩) = some kNotFound ∧
    (AddAll false init [⟨1⟩, ⟨2⟩, ⟨3⟩, ⟨4⟩, ⟨5⟩, ⟨6⟩, ⟨7⟩, ⟨8⟩, ⟨9⟩]).bind
        (fun l => Find false l ⟨9⟩) = some 0 :=
  ⟨hot_objects_hold_last_eight [⟨1⟩, ⟨2⟩, ⟨3⟩, ⟨4⟩, ⟨5⟩, ⟨6⟩, ⟨7⟩, ⟨8⟩, ⟨9⟩]
      (by decide) (by decide),
    by decide, by decide⟩

end v8.internal.HotObjectsList

namespace v8.internal

/-! ## Bitwise lemmas -/

theorem nat_lt_eight_of_and_mask (u : Nat) (hu : u < 4294967296)
    (h : u &&& 4294967288 = 0) : u < 8 := by
  have key : ∀ i, i ≥ 3 → u.testBit i = false := by
    intro i hi
    by_cases h32 : i < 32
    · have hb : (u &&& 4294967288).testBit i = false := by
        rw [h]; exact Nat.zero_testBit i
      rw [Nat.testBit_and] at hb
      have hc : Nat.testBit 4294967288 i = true := by
        interval_cases i <;> decide
      rw [hc, Bool.and_true] at hb
      exact hb
    · apply Nat.testBit_lt_two_pow
      calc u < 4294967296 := hu
        _ = 2 ^ 32 := by norm_num
        _ ≤ 2 ^ i := Nat.pow_le_pow_right (by decide) (by omega)
  have := Nat.lt_pow_two_of_testBit u key
  simpa using this

theorem bitNot_kSpaceMask : bitNot kSpaceMask = -8 := by decide

/-- The `STATIC_ASSERT` of `BytecodeWithSpace` admits exactly the spaces
0..7. -/
theorem spaceMask_admits_iff (s : Int) (hs : IsInt32 s) :
    bitAnd s (bitNot kSpaceMask) = 0 ↔ 0 ≤ s ∧ s ≤ 7 := by
  constructor
  · intro h
    rw [bitNot_kSpaceMask] at h
    have hneg : toUnsigned32 (-8) = 4294967288 := by decide
    unfold bitAnd at h
    rw [hneg] at h
    have hu : toUnsigned32 s < 4294967296 := by
      unfold toUnsigned32; omega
    have hle : toUnsigned32 s &&& 4294967288 ≤ 4294967288 := Nat.and_le_right
    have hz : toUnsigned32 s &&& 4294967288 = 0 := by
      unfold toSigned32 at h
      split at h <;> omega
    have h8 := nat_lt_eight_of_and_mask _ hu hz
    unfold IsInt32 at hs
    unfold toUnsigned32 at h8
    omega
  · intro h
    obtain ⟨h1, h2⟩ := h
    interval_cases s <;> decide

theorem toUnsigned32_of_nonneg (x : Int) (h0 : 0 ≤ x) (h1 : x < 2147483648) :
    toUnsigned32 x = x.toNat := by
  unfold toUnsigned32
  congr 1
  omega

theorem toSigned32_of_lt (n : Nat) (h : n < 2147483648) : toSigned32 n = (n : Int) := by
  unfold toSigned32
  have : n % 4294967296 = n := by omega
  rw [this, if_pos h]

/-- On a non-negative `int`, `x & kSpaceMask` is `x % 8`. -/
theorem bitAnd_kSpaceMask (x : Int) (h0 : 0 ≤ x) (h1 : x < 2147483648) :
    bitAnd x kSpaceMask = x % 8 := by
  unfold bitAnd kSpaceMask
  rw [toUnsigned32_of_nonneg x h0 h1, toUnsigned32_of_nonneg 7 (by decide) (by decide)]
  have h7 : (7 : Int).toNat = 2 ^ 3 - 1 := by decide
  rw [h7, Nat.and_pow_two_sub_one_eq_mod]
  rw [toSigned32_of_lt _ (by omega)]
  omega

/-- A multiple of 8 and a value below 8 add up to their bitwise or. -/
theorem add_eq_bitOr (b s : Int) (hb0 : 0 ≤ b) (hb1 : b ≤ 255) (hb : b % 8 = 0)
    (hs0 : 0 ≤ s) (hs1 : s ≤ 7) : b + s = bitOr b s := by
  unfold bitOr
  rw [toUnsigned32_of_nonneg b hb0 (by omega), toUnsigned32_of_nonneg s hs0 (by omega)]
  have hq : b.toNat = 2 ^ 3 * (b.toNat / 8) := by omega
  have hlt : s.toNat < 2 ^ 3 := by omega
  have hor := Nat.mul_add_lt_is_or hlt (b.toNat / 8)
  rw [← hq] at hor
  rw [← hor, toSigned32_of_lt _ (by omega)]
  omega

theorem bytecodeWithSpace_eq (s b : Int) (hs0 : 0 ≤ s) (hs1 : s ≤ 7)
    (hb0 : 0 ≤ b) (hb1 : b ≤ 255) :
    BytecodeWithSpace s b = if b % 8 = 0 then some (b + s) else none := by
  have hs : bitAnd s (bitNot kSpaceMask) = 0 :=
    (spaceMask_admits_iff s (by unfold IsInt32; omega)).2 ⟨hs0, hs1⟩
  unfold BytecodeWithSpace
  rw [if_pos hs, bitAnd_kSpaceMask b hb0 (by omega)]
  by_cases h : b % 8 = 0
  · rw [if_pos h, if_pos h, wrapInt32_of_isInt32 _ (by unfold IsInt32; omega),
      toByte_of_isByte _ (by unfold IsByte; omega)]
  · rw [if_neg h, if_neg h]

/-! ## `BytecodeWithSpace`: the assertion on the base opcode -/

/-- C12: `BytecodeWithSpace` rejects a base opcode whose low bits are not
zero.  For every base opcode `b` (a byte) and every space `s` (an `int`) that
passes the `STATIC_ASSERT`, that is with `(s & ~kSpaceMask) = 0`,
`BytecodeWithSpace<s>(b)` fails exactly when `(b & kSpaceMask) != 0`, and when
it succeeds its result is `b + s`, which equals `b | s`. -/
theorem bytecodeWithSpace_fails_iff_low_bits (b s : Int) (hb : IsByte b) (hs : IsInt32 s)
    (hmask : bitAnd s (bitNot kSpaceMask) = 0) :
    (BytecodeWithSpace s b = none ↔ bitAnd b kSpaceMask ≠ 0) ∧
    (∀ m : Int, BytecodeWithSpace s b = some m → m = b + s ∧ b + s = bitOr b s) := by
  obtain ⟨hs0, hs1⟩ := (spaceMask_admits_iff s hs).1 hmask
  obtain ⟨hb0, hb1⟩ := hb
  rw [bytecodeWithSpace_eq s b hs0 hs1 hb0 hb1, bitAnd_kSpaceMask b hb0 (by omega)]
  by_cases h : b % 8 = 0
  · rw [if_pos h]
    refine ⟨⟨fun hn => Option.noConfusion hn, fun hn => absurd h hn⟩, ?_⟩
    intro m hm
    exact ⟨(Option.some.inj hm).symm, add_eq_bitOr b s hb0 hb1 h hs0 hs1⟩
  · rw [if_neg h]
    refine ⟨⟨fun _ => h, fun _ => rfl⟩, ?_⟩
    intro m hm
    exact Option.noConfusion hm

/-- Instance of C12: with space 5, the base `kBackref` (0x08) is accepted and
merges to 0x0d, which is `0x08 | 5`, and the base 0x09 is rejected. -/
theorem bytecodeWithSpace_fails_iff_low_bits_witness :
    ((BytecodeWithSpace 5 kBackref = none ↔ bitAnd kBackref kSpaceMask ≠ 0) ∧
      (∀ m : Int, BytecodeWithSpace 5 kBackref = some m →
        m = kBackref + 5 ∧ kBackref + 5 = bitOr kBackref 5)) ∧
    BytecodeWithSpace 5 kBackref = some 0x0d ∧
    BytecodeWithSpace 5 0x09 = none ∧ bitAnd 0x09 kSpaceMask ≠ 0 :=
  ⟨bytecodeWithSpace_fails_iff_low_bits kBackref 5 (by decide) (by decide) (by decide),
   by decide, by decide, by decide⟩

/-! ## Decoders: the ranges their assertions accept -/

/-- C13 on the code: the range assertion of `DecodeFixedRawDataSize` passes
exactly for the bytes 0x60..0x80, one more than the fixed raw data range
0x60..0x7f; the extra byte 0x80 (`kFixedRepeat`) is decoded to the size 33,
which is outside 1..32 and which `EncodeFixedRawDataSize` rejects. -/
theorem decodeFixedRawDataSize_accepts_0x80 :
    (∀ b : Int, (DecodeFixedRawDataSize b).isSome = true ↔ 0x60 ≤ b ∧ b ≤ 0x80) ∧
    IsByte 0x80 ∧ kFixedRepeat = 0x80 ∧
    DecodeFixedRawDataSize 0x80 = some 33 ∧
    EncodeFixedRawDataSize 33 = none := by
  refine ⟨?_, by decide, by decide, by decide, by decide⟩
  intro b
  constructor
  · intro h
    by_contra hc
    have hr : ¬ (IsInRange b (kFixedRawData + 0) (kFixedRawData + kFixedRawDataCount) = true) := by
      rw [isInRange_iff]
      simp only [kFixedRawData, kFixedRawDataCount]
      omega
    rw [DecodeFixedRawDataSize, if_neg hr] at h
    exact Bool.noConfusion h
  · intro h
    rw [decodeFixedRawDataSize_eq b h.1 h.2]
    rfl

/-- C14 on the code: the range assertion of `DecodeFixedRepeatCount` passes
exactly for the values 0x80..0x90, one more than the fixed repeat range
0x80..0x8f; the extra value 0x90 (`kHotObject`) is decoded to the repeat count
18, which is `kFirstEncodableVariableRepeatCount`, a count that
`EncodeFixedRepeat` rejects and that must use the variable form. -/
theorem decodeFixedRepeatCount_accepts_0x90 :
    (∀ b : Int, (DecodeFixedRepeatCount b).isSome = true ↔ 0x80 ≤ b ∧ b ≤ 0x90) ∧
    kHotObject = 0x90 ∧
    DecodeFixedRepeatCount 0x90 = some 18 ∧
    kFirstEncodableVariableRepeatCount = 18 ∧
    EncodeFixedRepeat 18 = none ∧
    EncodeVariableRepeatCount 18 = some 0 := by
  refine ⟨?_, by decide, by decide, by decide, by decide, by decide⟩
  intro b
  constructor
  · intro h
    by_contra hc
    have hr : ¬ (IsInRange b (kFixedRepeat + 0) (kFixedRepeat + kFixedRepeatCount) = true) := by
      rw [isInRange_iff]
      simp only [kFixedRepeat, kFixedRepeatCount]
      omega
    rw [DecodeFixedRepeatCount, if_neg hr] at h
    exact Bool.noConfusion h
  · intro h
    rw [decodeFixedRepeatCount_eq b h.1 h.2]
    rfl

/-- C15, as stated, fails: 2147483647 is a non-negative `int` that
`DecodeVariableRepeatCount` accepts, but adding 18 to it overflows; modulo
2^32 the result is -2147483631, which is below 18 and which
`EncodeVariableRepeatCount` rejects. -/
theorem decodeVariableRepeatCount_overflows :
    IsInt32 2147483647 ∧ (0 : Int) ≤ 2147483647 ∧
    DecodeVariableRepeatCount 2147483647 = some (-2147483631) ∧
    ¬ ((18 : Int) ≤ -2147483631) ∧
    EncodeVariableRepeatCount (-2147483631) = none := by
  decide

/-- C15, amended: for every `int` `v` with `0 ≤ v ≤ 2147483629` (the largest
`int` minus 18), `DecodeVariableRepeatCount(v)` is the repeat count `v + 18`,
computed without overflow and at least 18; `EncodeVariableRepeatCount`
accepts it and maps it back to `v`. -/
theorem variableRepeatCount_decode_then_encode (v : Int) (h0 : 0 ≤ v)
    (h1 : v ≤ 2147483629) :
    ∃ c : Int, DecodeVariableRepeatCount v = some c ∧ c = v + 18 ∧ 18 ≤ c ∧
      IsInt32 c ∧ EncodeVariableRepeatCount c = some v := by
  refine ⟨v + 18, decodeVariableRepeatCount_eq v h0 (by omega), rfl, by omega,
    by unfold IsInt32; omega, ?_⟩
  rw [encodeVariableRepeatCount_eq _ (by omega) (by omega)]
  exact congrArg some (by omega)

/-- Instance of the amended C15 at the largest value it covers. -/
theorem variableRepeatCount_decode_then_encode_witness :
    ∃ c : Int, DecodeVariableRepeatCount 2147483629 = some c ∧ c = 2147483629 + 18 ∧
      18 ≤ c ∧ IsInt32 c ∧ EncodeVariableRepeatCount c = some 2147483629 :=
  variableRepeatCount_decode_then_encode 2147483629 (by decide) (by decide)

/-! ## Region merging and the other opcodes -/

/-- C19: region merging never aliases another defined opcode.  The mask
assertion of `BytecodeWithSpace` admits exactly the spaces 0..7, and
`kAnyOldSpace` is 6.  For each such space `s` and each base among
`kNewObject` and `kBackref`, the merged byte is `base + s`; for `s` in 0..5 it
lies in the region range of that base, for `s` = 6 and 7 it is one of the
bytes 0x06, 0x07, 0x0e, 0x0f, which are listed in
`UNUSED_SERIALIZER_BYTE_CODES`; and of the eight sets of the opcode table it
can only lie in the region range of its own base or in the unused list. -/
theorem bytecodeWithSpace_never_aliases :
    (∀ s : Int, IsInt32 s → (bitAnd s (bitNot kSpaceMask) = 0 ↔ 0 ≤ s ∧ s ≤ 7)) ∧
    kAnyOldSpace = 6 ∧
    (∀ s : Int, 0 ≤ s → s ≤ 7 →
      ∀ base : Int, base = kNewObject ∨ base = kBackref →
        ∃ m : Int, BytecodeWithSpace s base = some m ∧ m = base + s ∧
          ((s ≤ 5 ∧ m ∈ opcodeRange base kNumberOfSpaces) ∨
            (6 ≤ s ∧ m ∈ [0x06, 0x07, 0x0e, 0x0f] ∧ m ∈ UNUSED_SERIALIZER_BYTE_CODES)) ∧
          (∀ c ∈ opcodeClasses, m ∈ c →
            c = opcodeRange base kNumberOfSpaces ∨ c = UNUSED_SERIALIZER_BYTE_CODES)) := by
  refine ⟨spaceMask_admits_iff, rfl, ?_⟩
  intro s hs0 hs1 base hbase
  have hb : base = 0 ∨ base = 8 := hbase
  have hb0 : 0 ≤ base := by omega
  have hb1 : base ≤ 255 := by omega
  have hb8 : base % 8 = 0 := by omega
  refine ⟨base + s, ?_, rfl, ?_, ?_⟩
  · rw [bytecodeWithSpace_eq s base hs0 hs1 hb0 hb1, if_pos hb8]
  · by_cases h5 : s ≤ 5
    · left
      refine ⟨h5, ?_⟩
      rw [mem_opcodeRange]
      simp only [kNumberOfSpaces]
      omega
    · right
      refine ⟨by omega, ?_, ?_⟩
      · simp only [List.mem_cons, List.mem_singleton, List.not_mem_nil, or_false]
        omega
      · rw [mem_unused]
        omega
  · intro c hc hm
    simp only [opcodeClasses, List.mem_cons, List.mem_singleton, List.not_mem_nil,
      or_false] at hc
    rcases hc with rfl | rfl | rfl | rfl | rfl | rfl | rfl | rfl
    · rcases hbase with rfl | rfl
      · exact Or.inl rfl
      · rw [mem_newObjectCodes] at hm
        simp only [kBackref] at hm
        omega
    · rcases hbase with rfl | rfl
      · rw [mem_backrefCodes] at hm
        simp only [kNewObject] at hm
        omega
      · exact Or.inl rfl
    · rw [mem_singlePurposeCodes] at hm; omega
    · rw [mem_rootArrayConstantsCodes] at hm; omega
    · rw [mem_fixedRawDataCodes] at hm; omega
    · rw [mem_fixedRepeatCodes] at hm; omega
    · rw [mem_hotObjectCodes] at hm; omega
    · exact Or.inr rfl

/-- Instance of C19 at the space `kAnyOldSpace` with base `kBackref`: the
merged byte is the unused byte 0x0e. -/
theorem bytecodeWithSpace_never_aliases_witness :
    (∃ m : Int, BytecodeWithSpace kAnyOldSpace kBackref = some m ∧
      m = kBackref + kAnyOldSpace ∧
      ((kAnyOldSpace ≤ 5 ∧ m ∈ opcodeRange kBackref kNumberOfSpaces) ∨
        (6 ≤ kAnyOldSpace ∧ m ∈ [0x06, 0x07, 0x0e, 0x0f] ∧
          m ∈ UNUSED_SERIALIZER_BYTE_CODES)) ∧
      (∀ c ∈ opcodeClasses, m ∈ c →
        c = opcodeRange kBackref kNumberOfSpaces ∨ c = UNUSED_SERIALIZER_BYTE_CODES)) ∧
    BytecodeWithSpace kAnyOldSpace kBackref = some 0x0e :=
  ⟨bytecodeWithSpace_never_aliases.2.2 kAnyOldSpace (by decide) (by decide) kBackref
      (Or.inr rfl),
   by decide⟩

namespace HotObjectsList

/-! ## `HotObjectsList`: `Get`, `Add` and `Find` one call at a time -/

/-- C11: `Get` on an unpopulated slot is an error.  On a list that has
received the `n < 8` non-null objects `os` by `Add` calls since construction
(every call succeeds), `Get(i)` fails its assertion for every slot `i` with
`n ≤ i < 8`, and for every `i < n` it succeeds and returns `os[i]`, the
`(i+1)`-th added object. -/
theorem get_unpopulated_slot_fails (os : List HeapObject) (hlen : os.length < 8)
    (hn : ∀ o ∈ os, o.is_null = false) :
    ∃ l : HotObjectsList, AddAll false init os = some l ∧
      (∀ i : Int, (os.length : Int) ≤ i → i < 8 → Get false l i = none) ∧
      (∀ (i : Nat) (hi : i < os.length), Get false l (i : Int) = some os[i]) := by
  obtain ⟨l, hl, _, hslots⟩ := addAll_init_spec os
  have hk := kSize_eq
  refine ⟨l, hl, ?_, ?_⟩
  · intro i h1 h2
    have hi : i.toNat < kSize := by omega
    have hcast : i = (((⟨i.toNat, hi⟩ : Fin kSize).val : Nat) : Int) := by
      simp only
      omega
    rw [hcast, get_fin]
    rcases hslots ⟨i.toNat, hi⟩ with ⟨_, hnull⟩ | ⟨m, h3, _, h5, _⟩
    · rw [hnull]
      rfl
    · simp only at h5
      omega
  · intro i hi
    have hi8 : i < kSize := by omega
    have hget := get_fin l ⟨i, hi8⟩
    simp only at hget
    rw [hget]
    rcases hslots ⟨i, hi8⟩ with ⟨h1, _⟩ | ⟨m, h3, _, h5, h6⟩
    · simp only at h1
      omega
    · simp only at h5
      have hmi : m = i := by omega
      rw [hmi, List.getElem?_eq_getElem hi] at h6
      rw [← Option.some.inj h6, hn os[i] (List.getElem_mem hi)]
      rfl

/-- Instance of C11: after adding the objects 1, 2, 3, slot 2 holds the third
object and slot 3 is unpopulated. -/
theorem get_unpopulated_slot_fails_witness :
    (∃ l : HotObjectsList, AddAll false init [⟨1⟩, ⟨2⟩, ⟨3⟩] = some l ∧
      (∀ i : Int, (([(⟨1⟩ : HeapObject), ⟨2⟩, ⟨3⟩].length : Nat) : Int) ≤ i → i < 8 →
        Get false l i = none) ∧
      (∀ (i : Nat) (hi : i < [(⟨1⟩ : HeapObject), ⟨2⟩, ⟨3⟩].length),
        Get false l (i : Int) = some [(⟨1⟩ : HeapObject), ⟨2⟩, ⟨3⟩][i])) ∧
    (AddAll false init [⟨1⟩, ⟨2⟩, ⟨3⟩]).bind (fun l => Get false l 2) = some ⟨3⟩ ∧
    (AddAll false init [⟨1⟩, ⟨2⟩, ⟨3⟩]).bind (fun l => Get false l 3) = none :=
  ⟨get_unpopulated_slot_fails [⟨1⟩, ⟨2⟩, ⟨3⟩] (by decide) (by decide), by decide, by decide⟩

/-- C16: `Add` inserts at the next circular position and touches nothing
else.  Let `os` be the objects of the `k` earlier `Add` calls on a fresh list,
so that the call adding `x` is the `k`-th, counted from 0.  The call succeeds,
stores `x` in slot `k mod 8` and leaves the other 7 slots as they were.  The
slot it overwrites was never written when `k < 8` (it is null), and when
`k ≥ 8` it holds `os[k-8]`, the object of the oldest of the last 8 calls,
while every other slot holds the object of a later call. -/
theorem add_writes_next_circular_slot (os : List HeapObject) (x : HeapObject) :
    ∃ l l2 : HotObjectsList, AddAll false init os = some l ∧ Add false l x = some l2 ∧
      l2.slot ((os.length % 8 : Nat) : Int) = some x ∧
      (∀ j : Fin kSize, j.val ≠ os.length % 8 →
        l2.circular_queue_ j = l.circular_queue_ j) ∧
      (os.length < 8 → l.slot ((os.length % 8 : Nat) : Int) = some HeapObject.null) ∧
      (8 ≤ os.length →
        (∃ old : HeapObject, os[os.length - 8]? = some old ∧
          l.slot ((os.length % 8 : Nat) : Int) = some old) ∧
        ∀ j : Fin kSize, j.val ≠ os.length % 8 →
          ∃ m : Nat, os.length - 8 < m ∧ m < os.length ∧
            os[m]? = some (l.circular_queue_ j)) := by
  obtain ⟨l, hl, hidx, hslots⟩ := addAll_init_spec os
  have hk := kSize_eq
  have hlt : os.length % 8 < kSize := by omega
  have hadd := add_eq l x ⟨os.length % 8, hlt⟩ hidx
  have hslot := fun (l0 : HotObjectsList) => slot_fin l0 ⟨os.length % 8, hlt⟩
  simp only at hslot
  refine ⟨l, _, hl, hadd, ?_, ?_, ?_, ?_⟩
  · rw [hslot]
    simp only [Function.update_same]
  · intro j hj
    have hne : j ≠ ⟨os.length % 8, hlt⟩ := by
      intro hc
      exact hj (congrArg Fin.val hc)
    simp only [Function.update_noteq hne]
  · intro hsmall
    rw [hslot]
    rcases hslots ⟨os.length % 8, hlt⟩ with ⟨_, hnull⟩ | ⟨m, h3, _, h5, _⟩
    · rw [hnull]
    · simp only at h5
      omega
  · intro hfull
    constructor
    · rcases hslots ⟨os.length % 8, hlt⟩ with ⟨h1, _⟩ | ⟨m, h3, h4, h5, h6⟩
      · simp only at h1
        omega
      · simp only at h5
        have hm : m = os.length - 8 := by omega
        rw [hm] at h6
        exact ⟨_, h6, hslot l⟩
    · intro j hj
      have hjlt := j.isLt
      rcases hslots j with ⟨h1, _⟩ | ⟨m, h3, h4, h5, h6⟩
      · omega
      · refine ⟨m, ?_, h3, h6⟩
        by_contra hc
        have hm : m = os.length - 8 := by omega
        omega

/-- Instance of C16: the 9th `Add` (number 8, counted from 0) on a list that
received the objects 1..8 writes slot 0, whose old content is the object 1. -/
theorem add_writes_next_circular_slot_witness :
    (AddAll false init [⟨1⟩, ⟨2⟩, ⟨3⟩, ⟨4⟩, ⟨5⟩, ⟨6⟩, ⟨7⟩, ⟨8⟩]).bind
        (fun l => l.slot 0) = some ⟨1⟩ ∧
    ((AddAll false init [⟨1⟩, ⟨2⟩, ⟨3⟩, ⟨4⟩, ⟨5⟩, ⟨6⟩, ⟨7⟩, ⟨8⟩]).bind
        (fun l => Add false l ⟨9⟩)).bind (fun l2 => l2.slot 0) = some ⟨9⟩ ∧
    ((AddAll false init [⟨1⟩, ⟨2⟩, ⟨3⟩, ⟨4⟩, ⟨5⟩, ⟨6⟩, ⟨7⟩, ⟨8⟩]).bind
        (fun l => Add false l ⟨9⟩)).bind (fun l2 => l2.slot 1) = some ⟨2⟩ ∧
    (∃ l l2 : HotObjectsList,
      AddAll false init [⟨1⟩, ⟨2⟩, ⟨3⟩, ⟨4⟩, ⟨5⟩, ⟨6⟩, ⟨7⟩, ⟨8⟩] = some l ∧
      Add false l ⟨9⟩ = some l2 ∧ l2.slot 0 = some ⟨9⟩) := by
  refine ⟨by decide, by decide, by decide, ?_⟩
  obtain ⟨l, l2, h1, h2, h3, _⟩ :=
    add_writes_next_circular_slot [⟨1⟩, ⟨2⟩, ⟨3⟩, ⟨4⟩, ⟨5⟩, ⟨6⟩, ⟨7⟩, ⟨8⟩] ⟨9⟩
  exact ⟨l, l2, h1, h2, h3⟩

/-- C17: `Find` is a first-match linear scan that does not modify the list.
For every list state and every object `o`, `Find(o)` returns a value; that
value is `kNotFound`, which is -1, if and only if none of the 8 slots equals
`o`; otherwise it is the smallest index in 0..7 whose slot equals `o`,
whichever other slots hold `o` as well; and the list after the call is the
list before it. -/
theorem find_first_match (l : HotObjectsList) (o : HeapObject) :
    ∃ i : Int, Find false l o = some i ∧ kNotFound = -1 ∧
      (i = kNotFound ↔ ∀ j : Fin kSize, l.circular_queue_ j ≠ o) ∧
      (i ≠ kNotFound →
        ∃ j : Fin kSize, i = (j.val : Int) ∧ (0 ≤ i ∧ i ≤ 7) ∧ l.slot i = some o ∧
          ∀ j2 : Fin kSize, l.circular_queue_ j2 = o → j.val ≤ j2.val) ∧
      applyCall false l (Call.find o) = some l := by
  have hk := kSize_eq
  refine ⟨FindLoop l o kSize, find_eq l o, rfl, findLoop_eq_kNotFound_iff l o, ?_, rfl⟩
  intro hne
  rcases findLoop_spec l o kSize (le_refl _) with ⟨hnf, _⟩ | ⟨j, hj, _, hq, hmin⟩
  · exact absurd hnf hne
  · have hjlt := j.isLt
    refine ⟨j, hj, ?_, ?_, ?_⟩
    · rw [hj]
      constructor <;> omega
    · rw [hj, slot_fin, hq]
    · intro j2 hj2
      by_contra hc
      exact hmin j2 (by omega) (by omega) hj2

/-- Instance of C17: after adding the objects 5, 6, 5 the object 5 occupies
the slots 0 and 2 and `Find` returns 0; the object 9 is not found. -/
theorem find_first_match_witness :
    (AddAll false init [⟨5⟩, ⟨6⟩, ⟨5⟩]).bind (fun l => l.slot 0) = some ⟨5⟩ ∧
    (AddAll false init [⟨5⟩, ⟨6⟩, ⟨5⟩]).bind (fun l => l.slot 2) = some ⟨5⟩ ∧
    (AddAll false init [⟨5⟩, ⟨6⟩, ⟨5⟩]).bind (fun l => Find false l ⟨5⟩) = some 0 ∧
    (AddAll false init [⟨5⟩, ⟨6⟩, ⟨5⟩]).bind (fun l => Find false l ⟨9⟩) = some kNotFound ∧
    (∃ i : Int, Find false init ⟨9⟩ = some i ∧ i = kNotFound) := by
  refine ⟨by decide, by decide, by decide, by decide, ?_⟩
  obtain ⟨i, h1, _, h3, _⟩ := find_first_match init ⟨9⟩
  refine ⟨i, h1, h3.2 ?_⟩
  intro j
  show HeapObject.null ≠ (⟨9⟩ : HeapObject)
  decide

/-! ## `HotObjectsList`: the cursor over a run of calls -/

theorem applyCall_get (l l2 : HotObjectsList) (i : Int)
    (h : applyCall false l (Call.get i) = some l2) : l2 = l := by
  change (match Get false l i with
    | none => none
    | some _ => some l) = some l2 at h
  cases hg : Get false l i with
  | none => rw [hg] at h; exact Option.noConfusion h
  | some o => rw [hg] at h; exact (Option.some.inj h).symm

theorem applyCall_find (l l2 : HotObjectsList) (o : HeapObject)
    (h : applyCall false l (Call.find o) = some l2) : l2 = l := by
  change (match Find false l o with
    | none => none
    | some _ => some l) = some l2 at h
  rw [find_eq] at h
  exact (Option.some.inj h).symm

/-- Cursor after a run of calls from a state whose cursor is `n0 % 8`. -/
theorem runCalls_index (calls : List Call) :
    ∀ (l0 : HotObjectsList) (n0 : Nat), l0.index_ = ((n0 % 8 : Nat) : Int) →
      ∀ l : HotObjectsList, runCalls false l0 calls = some l →
        l.index_ = (((n0 + addCalls calls) % 8 : Nat) : Int) := by
  induction calls with
  | nil =>
    intro l0 n0 h0 l hl
    have : l = l0 := (Option.some.inj hl).symm
    rw [this, h0]
    rfl
  | cons call rest ih =>
    intro l0 n0 h0 l hl
    have hk := kSize_eq
    unfold runCalls at hl
    cases call with
    | add o =>
      have hadd := add_eq l0 o ⟨n0 % 8, by omega⟩ h0
      have happ : applyCall false l0 (Call.add o) = Add false l0 o := rfl
      rw [happ, hadd] at hl
      simp only at hl
      have h1 := ih _ (n0 + 1) (by simp only; congr 1; omega) l hl
      rw [h1]
      congr 1
      simp only [addCalls]
      omega
    | get i =>
      cases hc : applyCall false l0 (Call.get i) with
      | none => rw [hc] at hl; exact Option.noConfusion hl
      | some l1 =>
        rw [hc] at hl
        simp only at hl
        rw [applyCall_get l0 l1 i hc] at hl
        exact ih l0 n0 h0 l hl
    | find o =>
      cases hc : applyCall false l0 (Call.find o) with
      | none => rw [hc] at hl; exact Option.noConfusion hl
      | some l1 =>
        rw [hc] at hl
        simp only at hl
        rw [applyCall_find l0 l1 o hc] at hl
        exact ih l0 n0 h0 l hl

/-- C18: in every state `l` reached from a fresh list by a run of `Add`,
`Get` and `Find` calls, the cursor satisfies `0 ≤ index_ < 8` and equals the
number of `Add` calls of the run modulo 8, so the next `Add` writes inside the
array and succeeds; and a `Get` or `Find` call made in that state leaves
`index_` unchanged. -/
theorem cursor_in_bounds (calls : List Call) (l : HotObjectsList)
    (h : runCalls false init calls = some l) :
    (0 ≤ l.index_ ∧ l.index_ < 8) ∧
    l.index_ = ((addCalls calls % 8 : Nat) : Int) ∧
    (∀ o : HeapObject, ∃ l2 : HotObjectsList, Add false l o = some l2) ∧
    (∀ (i : Int) (l2 : HotObjectsList),
      applyCall false l (Call.get i) = some l2 → l2.index_ = l.index_) ∧
    (∀ (o : HeapObject) (l2 : HotObjectsList),
      applyCall false l (Call.find o) = some l2 → l2.index_ = l.index_) := by
  have hidx : l.index_ = ((addCalls calls % 8 : Nat) : Int) := by
    have := runCalls_index calls init 0 rfl l h
    rw [this]
    congr 1
    omega
  have hk := kSize_eq
  refine ⟨?_, hidx, ?_, ?_, ?_⟩
  · rw [hidx]
    constructor <;> omega
  · intro o
    exact ⟨_, add_eq l o ⟨addCalls calls % 8, by omega⟩ hidx⟩
  · intro i l2 h2
    rw [applyCall_get l l2 i h2]
  · intro o l2 h2
    rw [applyCall_find l l2 o h2]

/-- Instance of C18: the run `Add(1)`, `Find(1)`, `Get(0)` on a fresh list
ends in the state with the object 1 in slot 0 and the cursor at 1; and a run
with nine `Add` calls, a `Find` and a `Get` ends with the cursor at 1 again. -/
theorem cursor_in_bounds_witness :
    runCalls false init [Call.add ⟨1⟩, Call.find ⟨1⟩, Call.get 0] =
      some ⟨Function.update init.circular_queue_ ⟨0, by decide⟩ ⟨1⟩, 1⟩ ∧
    ((0 : Int) ≤ 1 ∧ (1 : Int) < 8) ∧
    (1 : Int) = ((addCalls [Call.add ⟨1⟩, Call.find ⟨1⟩, Call.get 0] % 8 : Nat) : Int) ∧
    (runCalls false init
      [Call.add ⟨1⟩, Call.add ⟨2⟩, Call.find ⟨2⟩, Call.add ⟨3⟩, Call.add ⟨4⟩,
       Call.get 0, Call.add ⟨5⟩, Call.add ⟨6⟩, Call.add ⟨7⟩, Call.add ⟨8⟩,
       Call.add ⟨9⟩]).map (fun l => l.index_) = some 1 :=
  ⟨rfl,
   (cursor_in_bounds [Call.add ⟨1⟩, Call.find ⟨1⟩, Call.get 0]
      ⟨Function.update init.circular_queue_ ⟨0, by decide⟩ ⟨1⟩, 1⟩ rfl).1,
   (cursor_in_bounds [Call.add ⟨1⟩, Call.find ⟨1⟩, Call.get 0]
      ⟨Function.update init.circular_queue_ ⟨0, by decide⟩ ⟨1⟩, 1⟩ rfl).2.1,
   by decide⟩

end HotObjectsList

end v8.internal
